import Mathlib

/-!
Shallow embedding of `kerashelper.py` (superkeras): `LayerStack`,
`repeat_layers` and `call_layers`, together with theorems checking the
natural-language specification against the code.

Layer constructors are opaque in the source, so `repeat_layers` is embedded
as a function returning, for each constructed layer, the *call record*: the
positional arguments and the keyword configuration the constructor receives.
Python keyword dictionaries are embedded as association lists with
dict-assignment (`setKw`), `dict.pop` (`popKw`) and lookup; Python `IndexError`
and `ValueError` become an explicit error type and `Except`.
-/

/-- Python exceptions that the embedded code can raise. -/
inductive PyError where
  | indexError
  | valueError (msg : String)
deriving DecidableEq

/-- Values stored in a keyword configuration: Python `None`, a string
(used for layer names), or an opaque framework value of type `α`. -/
inductive PyVal (α : Type) where
  | pynone
  | str (s : String)
  | val (a : α)
deriving DecidableEq

/-- The arguments a single constructor call `layer_class(*arg, **kwargs)`
receives: the positional-argument tuple and the keyword configuration
(the dictionary's contents at call time, since `**kwargs` copies). -/
structure CallRecord (α : Type) where
  posArgs : List α
  kwargs : List (String × PyVal α)
deriving DecidableEq

/-- Lookup in a Python dict embedded as an association list. -/
def lookupKw (kw : List (String × PyVal α)) (k : String) : Option (PyVal α) :=
  match kw with
  | [] => Option.none
  | p :: rest => if p.1 = k then some p.2 else lookupKw rest k

/-- Key membership in the embedded dict. -/
def hasKw (kw : List (String × PyVal α)) (k : String) : Bool :=
  (lookupKw kw k).isSome

/-- Python dict assignment `kw[k] = v`: overwrite in place when the key is
present, otherwise append at the end (insertion order). -/
def setKw (kw : List (String × PyVal α)) (k : String) (v : PyVal α) :
    List (String × PyVal α) :=
  if hasKw kw k then kw.map (fun p => if p.1 = k then (k, v) else p)
  else kw ++ [(k, v)]

/-- Python `kw.pop(k, None)`: remove the key when present. -/
def popKw (kw : List (String × PyVal α)) (k : String) : List (String × PyVal α) :=
  kw.filter (fun p => p.1 != k)

/-- Python list indexing `l[i]` for a nonnegative index: out of range raises
`IndexError`. -/
def getIdx (l : List β) (i : Nat) : Except PyError β :=
  match l[i]? with
  | some x => Except.ok x
  | Option.none => Except.error PyError.indexError

/-- The inner loop `for j in range(len(args)): arg.append(args[j][i])` of
`repeat_layers`: collect element `i` of every argument list, in order. -/
def collectArgs (args : List (List α)) (i : Nat) : Except PyError (List α) :=
  match args with
  | [] => Except.ok []
  | l :: rest =>
    match getIdx l i with
    | Except.error e => Except.error e
    | Except.ok x =>
      match collectArgs rest i with
      | Except.error e => Except.error e
      | Except.ok xs => Except.ok (x :: xs)

/-- Python truthiness of the `name` argument: `if name:` is false for
`None` and for the empty string. -/
def pyTruthy : Option String → Bool
  | Option.none => false
  | some s => s != ""

/-- The body of `if name: kwargs["name"] = name + "_" + str(name_start_index + i)`
executed at loop index `i`. -/
def injectName (name : Option String) (name_start_index : Int) (i : Nat)
    (kw : List (String × PyVal α)) : List (String × PyVal α) :=
  if pyTruthy name then
    setKw kw "name" (PyVal.str (name.getD "" ++ "_" ++ toString (name_start_index + (i : Int))))
  else kw

/-- Python `kwargs.pop("input_shape", None)`: the source comment reads
"remove input_shape for later layers". -/
def stripIS (kw : List (String × PyVal α)) : List (String × PyVal α) :=
  popKw kw "input_shape"

/-- The loop of `repeat_layers` from index `i`, with `fuel` iterations left
(`fuel = len(args[0]) - i`) and the current state of the mutable `kwargs`
dictionary. Each iteration builds the positional tuple, possibly injects the
running name, records the constructor call, then pops `"input_shape"`. -/
def repeatFrom (args : List (List α)) (name : Option String) (name_start_index : Int) :
    List (String × PyVal α) → Nat → Nat → Except PyError (List (CallRecord α))
  | _, _, 0 => Except.ok []
  | kw, i, fuel+1 =>
    match collectArgs args i with
    | Except.error e => Except.error e
    | Except.ok arg =>
      let kw2 := injectName name name_start_index i kw
      match repeatFrom args name name_start_index (stripIS kw2) (i+1) fuel with
      | Except.error e => Except.error e
      | Except.ok rest => Except.ok (⟨arg, kw2⟩ :: rest)

/-- Python `None` or a string, as the value passed for `name=name`. -/
def pyName (name : Option String) : PyVal α :=
  match name with
  | Option.none => PyVal.pynone
  | some s => PyVal.str s

/-- Embedding of `repeat_layers(layer_class, *args, name=None, name_start_index=1, **kwargs)`:
if `args` is empty return the single call `layer_class(name=name, **kwargs)`,
otherwise run the loop for `len(args[0])` iterations. The result is the list
of constructor call records. -/
def repeat_layers (args : List (List α)) (name : Option String)
    (name_start_index : Int) (kwargs : List (String × PyVal α)) :
    Except PyError (List (CallRecord α)) :=
  match args with
  | [] => Except.ok [⟨[], ("name", pyName name) :: kwargs⟩]
  | a0 :: rest => repeatFrom (a0 :: rest) name name_start_index kwargs 0 a0.length

/-- Embedding of `call_layers(layers, tensor)`: pass `tensor` through each layer in order
and return the final value. -/
def call_layers (layers : List (α → α)) (tensor : α) : α :=
  match layers with
  | [] => tensor
  | l :: rest => call_layers rest (l tensor)

/-- The kinds of Python value relevant to `LayerStack.__init__`: a built-in
list of layers, a built-in tuple of layers, a composite (keras-Model-like)
object exposing a `.layers` member, or an integer. -/
inductive PyObj (α : Type) where
  | pylist (ls : List (α → α))
  | pytuple (ls : List (α → α))
  | withLayers (member : PyObj α)
  | intVal (n : Int)

/-- The attribute access `keras_layers.layers`: succeeds only on a composite
object exposing the member; lists, tuples and integers raise
`AttributeError` (caught by the source's bare `except`). -/
def getLayersAttr : PyObj α → Option (PyObj α)
  | PyObj.withLayers m => some m
  | _ => Option.none

/-- Python `isinstance(keras_layers, list)`. -/
def isPyList : PyObj α → Bool
  | PyObj.pylist _ => true
  | _ => false

/-- Embedding of `LayerStack.__init__`: try `keras_layers = keras_layers.layers` (keeping
the original on failure), then require a built-in list, else raise
`ValueError`. Returns the stored `self.layers`. -/
def layerStackInit (x : PyObj α) : Except PyError (List (α → α)) :=
  let v := match getLayersAttr x with
    | some m => m
    | Option.none => x
  match v with
  | PyObj.pylist ls => Except.ok ls
  | _ => Except.error (PyError.valueError
      "`keras_layers` must be a list or a keras Model instance.")

/-- Embedding of `LayerStack.__call__(tensor)`: delegate to `call_layers` on the stored
layers. -/
def stackCall (layers : List (α → α)) (tensor : α) : α :=
  call_layers layers tensor

/-- The caller-visible mutable state around a `repeat_layers` call: the heap
cells of the caller's argument lists and the mapping the caller used to
supply the keyword arguments. -/
structure Store (α : Type) where
  lists : List (List α)
  callerKw : List (String × PyVal α)

/-- The loop of `repeat_layers`, threading the caller's store through every
operation: argument lists are only read (via `collectArgs` on `s.lists`),
and the name injection and `pop` act on the callee's own `kwargs` dict. -/
def repeatFromSt (name : Option String) (name_start_index : Int) :
    Store α → List (String × PyVal α) → Nat → Nat →
    Except PyError (List (CallRecord α)) × Store α
  | s, _, _, 0 => (Except.ok [], s)
  | s, kw, i, fuel+1 =>
    match collectArgs s.lists i with
    | Except.error e => (Except.error e, s)
    | Except.ok arg =>
      let kw2 := injectName name name_start_index i kw
      match repeatFromSt name name_start_index s (stripIS kw2) (i+1) fuel with
      | (Except.error e, s2) => (Except.error e, s2)
      | (Except.ok rest, s2) => (Except.ok (⟨arg, kw2⟩ :: rest), s2)

/-- Embedding of `repeat_layers` with the caller's store made explicit: the callee's
`kwargs` dict starts as a copy of the caller's mapping (built by `**`
unpacking at call time), and the loop reads the lists from the store. -/
def repeat_layers_st (s : Store α) (name : Option String) (name_start_index : Int) :
    Except PyError (List (CallRecord α)) × Store α :=
  match s.lists with
  | [] => (Except.ok [⟨[], ("name", pyName name) :: s.callerKw⟩], s)
  | a0 :: _ => repeatFromSt name name_start_index s s.callerKw 0 a0.length

/-- The keyword-dictionary state after `k` full loop iterations starting at
index `i` with dictionary `kw`: each iteration injects the running name and
then pops `"input_shape"`. -/
def kwIter (name : Option String) (name_start_index : Int) :
    Nat → List (String × PyVal α) → Nat → List (String × PyVal α)
  | _, kw, 0 => kw
  | i, kw, k+1 => kwIter name name_start_index (i+1)
      (stripIS (injectName name name_start_index i kw)) k

/-! Association-list (Python dict) lemmas -/

theorem lookupKw_map_replace (k : String) (v : PyVal α) :
    ∀ kw : List (String × PyVal α), hasKw kw k = true →
    lookupKw (kw.map (fun p => if p.1 = k then (k, v) else p)) k = some v := by
  intro kw
  induction kw with
  | nil => intro h; simp [hasKw, lookupKw] at h
  | cons p rest ih =>
    intro h
    by_cases hp : p.1 = k
    · simp [lookupKw, hp]
    · have h2 : hasKw rest k = true := by
        simpa [hasKw, lookupKw, hp] using h
      simpa [lookupKw, hp] using ih h2

theorem lookupKw_append_single (k : String) (v : PyVal α) :
    ∀ kw : List (String × PyVal α), hasKw kw k = false →
    lookupKw (kw ++ [(k, v)]) k = some v := by
  intro kw
  induction kw with
  | nil => simp [lookupKw]
  | cons p rest ih =>
    intro h
    by_cases hp : p.1 = k
    · simp [hasKw, lookupKw, hp] at h
    · have h2 : hasKw rest k = false := by
        simpa [hasKw, lookupKw, hp] using h
      simpa [lookupKw, hp] using ih h2

theorem lookupKw_setKw_self (kw : List (String × PyVal α)) (k : String) (v : PyVal α) :
    lookupKw (setKw kw k v) k = some v := by
  by_cases h : hasKw kw k
  · simp only [setKw, h, if_true]
    exact lookupKw_map_replace k v kw h
  · simp only [setKw, Bool.not_eq_true] at *
    simp only [setKw, h, Bool.false_eq_true, if_false]
    exact lookupKw_append_single k v kw h

theorem lookupKw_setKw_ne (k k2 : String) (v : PyVal α) (hk : k2 ≠ k) :
    ∀ kw : List (String × PyVal α), lookupKw (setKw kw k v) k2 = lookupKw kw k2 := by
  have hk2 : ¬ (k = k2) := fun h => hk h.symm
  have hmap : ∀ kw : List (String × PyVal α),
      lookupKw (kw.map (fun p => if p.1 = k then (k, v) else p)) k2 = lookupKw kw k2 := by
    intro kw
    induction kw with
    | nil => rfl
    | cons p rest ih =>
      by_cases hp : p.1 = k
      · have hp2 : ¬ (p.1 = k2) := by rw [hp]; exact hk2
        simp [lookupKw, hp, hp2, hk2, ih]
      · by_cases hp2 : p.1 = k2
        · simp [lookupKw, hp, hp2, hk, Ne.symm hk]
        · simp [lookupKw, hp, hp2, ih]
  have happ : ∀ kw : List (String × PyVal α),
      lookupKw (kw ++ [(k, v)]) k2 = lookupKw kw k2 := by
    intro kw
    induction kw with
    | nil => simp [lookupKw, hk2]
    | cons p rest ih =>
      by_cases hp2 : p.1 = k2
      · simp [lookupKw, hp2]
      · simp [lookupKw, hp2, ih]
  intro kw
  by_cases h : hasKw kw k
  · simp only [setKw, h, if_true]; exact hmap kw
  · simp only [setKw, h, Bool.false_eq_true, if_false]; exact happ kw

theorem lookupKw_popKw_self (k : String) :
    ∀ kw : List (String × PyVal α), lookupKw (popKw kw k) k = Option.none := by
  intro kw
  induction kw with
  | nil => rfl
  | cons p rest ih =>
    by_cases hp : p.1 = k
    · simpa [popKw, List.filter_cons, bne_iff_ne, hp] using ih
    · simpa [popKw, List.filter_cons, bne_iff_ne, lookupKw, hp] using ih

theorem lookupKw_popKw_ne (k k2 : String) (hk : k2 ≠ k) :
    ∀ kw : List (String × PyVal α), lookupKw (popKw kw k) k2 = lookupKw kw k2 := by
  intro kw
  induction kw with
  | nil => rfl
  | cons p rest ih =>
    by_cases hp : p.1 = k
    · have hp2 : ¬ (p.1 = k2) := by
        rw [hp]; exact fun h => hk h.symm
      have hl : popKw (p :: rest) k = popKw rest k := by
        simp [popKw, List.filter_cons, bne_iff_ne, hp]
      rw [hl, ih]
      simp [lookupKw, hp2]
    · have hl : popKw (p :: rest) k = p :: popKw rest k := by
        simp [popKw, List.filter_cons, bne_iff_ne, hp]
      rw [hl]
      by_cases hp2 : p.1 = k2
      · simp [lookupKw, hp2]
      · simp [lookupKw, hp2, ih]

theorem hasKw_setKw_ne (kw : List (String × PyVal α)) (k k2 : String) (v : PyVal α)
    (hk : k2 ≠ k) : hasKw (setKw kw k v) k2 = hasKw kw k2 := by
  simp [hasKw, lookupKw_setKw_ne k k2 v hk kw]

theorem hasKw_popKw_self (kw : List (String × PyVal α)) (k : String) :
    hasKw (popKw kw k) k = false := by
  simp [hasKw, lookupKw_popKw_self k kw]

theorem hasKw_injectName_IS (kw : List (String × PyVal α)) (name : Option String)
    (nsi : Int) (i : Nat) :
    hasKw (injectName name nsi i kw) "input_shape" = hasKw kw "input_shape" := by
  by_cases h : pyTruthy name
  · simp only [injectName, h, if_true]
    exact hasKw_setKw_ne kw "name" "input_shape" _ (by decide)
  · simp [injectName, h]

theorem hasKw_stripIS (kw : List (String × PyVal α)) :
    hasKw (stripIS kw) "input_shape" = false :=
  hasKw_popKw_self kw "input_shape"

theorem kwIter_no_IS (name : Option String) (nsi : Int) :
    ∀ (k i : Nat) (kw : List (String × PyVal α)),
    hasKw kw "input_shape" = false →
    hasKw (kwIter name nsi i kw k) "input_shape" = false := by
  intro k
  induction k with
  | zero => intro i kw h; exact h
  | succ k ih =>
    intro i kw h
    exact ih (i+1) (stripIS (injectName name nsi i kw)) (hasKw_stripIS _)

theorem kwIter_succ_no_IS (name : Option String) (nsi : Int) (k i : Nat)
    (kw : List (String × PyVal α)) :
    hasKw (kwIter name nsi i kw (k+1)) "input_shape" = false :=
  kwIter_no_IS name nsi k (i+1) (stripIS (injectName name nsi i kw)) (hasKw_stripIS _)

/-! Lemmas about `getIdx` and `collectArgs` -/

theorem getIdx_ok_of_lt (l : List β) (i : Nat) (h : i < l.length) :
    getIdx l i = Except.ok l[i] := by
  simp [getIdx, List.getElem?_eq_getElem h]

theorem getIdx_ok_lt (l : List β) (i : Nat) (x : β)
    (h : getIdx l i = Except.ok x) : i < l.length := by
  by_cases hl : i < l.length
  · exact hl
  · have hq : l[i]? = Option.none := List.getElem?_eq_none (by omega)
    simp [getIdx, hq] at h

theorem getIdx_error_eq (l : List β) (i : Nat) (e : PyError)
    (h : getIdx l i = Except.error e) : e = PyError.indexError := by
  cases hq : l[i]? with
  | none =>
    simp only [getIdx, hq, Except.error.injEq] at h
    exact h.symm
  | some x => simp [getIdx, hq] at h

theorem collectArgs_ok_of_lt (args : List (List α)) (i : Nat) (d : α)
    (h : ∀ l ∈ args, i < l.length) :
    collectArgs args i = Except.ok (args.map (fun l => l.getD i d)) := by
  induction args with
  | nil => rfl
  | cons a rest ih =>
    have ha : i < a.length := h a (List.mem_cons_self a rest)
    have hr := ih (fun l hl => h l (List.mem_cons_of_mem a hl))
    have hd : a.getD i d = a[i] := List.getD_eq_getElem a d ha
    simp [collectArgs, getIdx_ok_of_lt a i ha, hr, hd, List.getElem?_eq_getElem ha]

theorem collectArgs_ok_lengths :
    ∀ (args : List (List α)) (i : Nat) (r : List α),
    collectArgs args i = Except.ok r → ∀ l ∈ args, i < l.length := by
  intro args i
  induction args with
  | nil => intro r h l hl; simp at hl
  | cons a rest ih =>
    intro r h l hl
    cases hg : getIdx a i with
    | error e => simp [collectArgs, hg] at h
    | ok x =>
      cases hc : collectArgs rest i with
      | error e => simp [collectArgs, hg, hc] at h
      | ok xs =>
        cases hl with
        | head => exact getIdx_ok_lt a i x hg
        | tail _ hmem => exact ih xs hc l hmem

theorem collectArgs_ok_or_idx (args : List (List α)) (i : Nat) :
    (∃ r, collectArgs args i = Except.ok r) ∨
    collectArgs args i = Except.error PyError.indexError := by
  induction args with
  | nil => exact Or.inl ⟨[], rfl⟩
  | cons a rest ih =>
    cases hg : getIdx a i with
    | error e =>
      right
      have he := getIdx_error_eq a i e hg
      simp [collectArgs, hg, he]
    | ok x =>
      cases ih with
      | inr h => right; simp [collectArgs, hg, h]
      | inl h =>
        obtain ⟨r, hr⟩ := h
        exact Or.inl ⟨x :: r, by simp [collectArgs, hg, hr]⟩

/-! Structure of the `repeat_layers` loop -/

theorem repeatFrom_ok_spec (args : List (List α)) (name : Option String) (nsi : Int) (d : α) :
    ∀ (fuel i : Nat) (kw : List (String × PyVal α)),
    (∀ l ∈ args, i + fuel ≤ l.length) →
    ∃ recs, repeatFrom args name nsi kw i fuel = Except.ok recs ∧
      recs.length = fuel ∧
      ∀ k, k < fuel → recs[k]? =
        some ⟨args.map (fun l => l.getD (i+k) d),
              injectName name nsi (i+k) (kwIter name nsi i kw k)⟩ := by
  intro fuel
  induction fuel with
  | zero =>
    intro i kw h
    exact ⟨[], rfl, rfl, fun k hk => absurd hk (by omega)⟩
  | succ fuel ih =>
    intro i kw h
    have hlt : ∀ l ∈ args, i < l.length := fun l hl => by have := h l hl; omega
    have hc := collectArgs_ok_of_lt args i d hlt
    obtain ⟨rest, hrest, hlen, hidx⟩ := ih (i+1) (stripIS (injectName name nsi i kw))
      (fun l hl => by have := h l hl; omega)
    refine ⟨⟨args.map (fun l => l.getD i d), injectName name nsi i kw⟩ :: rest,
      ?_, by simp [hlen], ?_⟩
    · simp [repeatFrom, hc, hrest]
    · intro k hk
      cases k with
      | zero => simp [kwIter]
      | succ k2 =>
        have hk2 : k2 < fuel := by omega
        have harith : i + (k2 + 1) = (i + 1) + k2 := by omega
        rw [List.getElem?_cons_succ, harith]
        exact hidx k2 hk2

theorem repeatFrom_ok_len (args : List (List α)) (name : Option String) (nsi : Int) :
    ∀ (fuel i : Nat) (kw : List (String × PyVal α)) (recs : List (CallRecord α)),
    repeatFrom args name nsi kw i fuel = Except.ok recs → recs.length = fuel := by
  intro fuel
  induction fuel with
  | zero =>
    intro i kw recs h
    simp only [repeatFrom, Except.ok.injEq] at h
    rw [← h]; rfl
  | succ fuel ih =>
    intro i kw recs h
    cases hg : collectArgs args i with
    | error e => simp [repeatFrom, hg] at h
    | ok arg =>
      cases hr : repeatFrom args name nsi (stripIS (injectName name nsi i kw)) (i+1) fuel with
      | error e => simp [repeatFrom, hg, hr] at h
      | ok rest =>
        simp only [repeatFrom, hg, hr, Except.ok.injEq] at h
        have := ih (i+1) (stripIS (injectName name nsi i kw)) rest hr
        rw [← h]
        simp [this]

theorem repeatFrom_ok_lengths (args : List (List α)) (name : Option String) (nsi : Int) :
    ∀ (fuel i : Nat) (kw : List (String × PyVal α)) (recs : List (CallRecord α)),
    repeatFrom args name nsi kw i fuel = Except.ok recs →
    ∀ l ∈ args, fuel = 0 ∨ i + fuel ≤ l.length := by
  intro fuel
  induction fuel with
  | zero => intro i kw recs h l hl; exact Or.inl rfl
  | succ fuel ih =>
    intro i kw recs h l hl
    cases hg : collectArgs args i with
    | error e => simp [repeatFrom, hg] at h
    | ok arg =>
      cases hr : repeatFrom args name nsi (stripIS (injectName name nsi i kw)) (i+1) fuel with
      | error e => simp [repeatFrom, hg, hr] at h
      | ok rest =>
        have h1 : i < l.length := collectArgs_ok_lengths args i arg hg l hl
        have h2 := ih (i+1) (stripIS (injectName name nsi i kw)) rest hr l hl
        right
        cases h2 with
        | inl h0 => omega
        | inr hle => omega

theorem repeatFrom_ok_or_idx (args : List (List α)) (name : Option String) (nsi : Int) :
    ∀ (fuel i : Nat) (kw : List (String × PyVal α)),
    (∃ recs, repeatFrom args name nsi kw i fuel = Except.ok recs) ∨
    repeatFrom args name nsi kw i fuel = Except.error PyError.indexError := by
  intro fuel
  induction fuel with
  | zero => intro i kw; exact Or.inl ⟨[], rfl⟩
  | succ fuel ih =>
    intro i kw
    cases hg0 : collectArgs args i with
    | error e =>
      right
      have he : e = PyError.indexError := by
        cases collectArgs_ok_or_idx args i with
        | inl hok =>
          obtain ⟨r, hr⟩ := hok
          rw [hr] at hg0
          exact absurd hg0 (by simp)
        | inr herr =>
          rw [herr] at hg0
          injection hg0 with h2
          exact h2.symm
      subst he
      simp [repeatFrom, hg0]
    | ok arg =>
      cases ih (i+1) (stripIS (injectName name nsi i kw)) with
      | inr h => right; simp [repeatFrom, hg0, h]
      | inl h =>
        obtain ⟨rest, hr⟩ := h
        exact Or.inl ⟨⟨arg, injectName name nsi i kw⟩ :: rest, by simp [repeatFrom, hg0, hr]⟩

theorem getElem?_some_lt (l : List β) (i : Nat) (x : β) (h : l[i]? = some x) :
    i < l.length := by
  by_cases hl : i < l.length
  · exact hl
  · rw [List.getElem?_eq_none (by omega)] at h
    exact absurd h (by simp)

/-! Claim theorems about `repeat_layers` -/

/-- C1: for every call to `repeat_layers` with at least one argument list and
all argument lists of equal length `n`, the result is a sequence of `n`
constructor calls, and call `i` receives as positional arguments exactly the
tuple of the `i`-th elements of the argument lists, in the order the lists
were supplied. -/
theorem repeat_layers_pairs_args (args : List (List α)) (name : Option String)
    (nsi : Int) (kw : List (String × PyVal α)) (d : α) (n : Nat)
    (hne : args ≠ []) (hlen : ∀ l ∈ args, l.length = n) :
    ∃ recs, repeat_layers args name nsi kw = Except.ok recs ∧ recs.length = n ∧
      ∀ i, i < n → ∃ rec, recs[i]? = some rec ∧
        rec.posArgs = args.map (fun l => l.getD i d) := by
  cases args with
  | nil => exact absurd rfl hne
  | cons a0 rest =>
    have ha0 : a0.length = n := hlen a0 (List.mem_cons_self a0 rest)
    obtain ⟨recs, hok, hrlen, hidx⟩ :=
      repeatFrom_ok_spec (a0 :: rest) name nsi d a0.length 0 kw
        (fun l hl => by rw [hlen l hl, ha0]; omega)
    refine ⟨recs, ?_, by rw [hrlen, ha0], ?_⟩
    · simpa [repeat_layers] using hok
    · intro i hi
      have hi2 : i < a0.length := by omega
      have hrec := hidx i hi2
      simp only [Nat.zero_add] at hrec
      exact ⟨_, hrec, rfl⟩

/-- C2: whenever a call with a nonempty tuple of argument lists returns, the
returned sequence has exactly `len(args[0])` elements; and with no argument
lists at all the result is one single record, the call
`layer_class(name=name, **kwargs)` with no positional arguments. -/
theorem repeat_layers_length (args : List (List α)) (a0 : List α)
    (rest : List (List α)) (name : Option String) (nsi : Int)
    (kw : List (String × PyVal α)) (recs : List (CallRecord α))
    (hargs : args = a0 :: rest)
    (hok : repeat_layers args name nsi kw = Except.ok recs) :
    recs.length = a0.length ∧
    repeat_layers ([] : List (List α)) name nsi kw =
      Except.ok [⟨[], ("name", pyName name) :: kw⟩] := by
  subst hargs
  refine ⟨?_, rfl⟩
  exact repeatFrom_ok_len (a0 :: rest) name nsi a0.length 0 kw recs
    (by simpa [repeat_layers] using hok)

/-- C3: in a successfully constructed batch of size at least 2 whose shared
configuration contains the key "input_shape", the first constructor call
receives that key and every later constructor call does not. -/
theorem repeat_layers_IS_first_only (args : List (List α)) (a0 : List α)
    (rest : List (List α)) (name : Option String) (nsi : Int)
    (kw : List (String × PyVal α)) (recs : List (CallRecord α))
    (hargs : args = a0 :: rest) (hn : 2 ≤ a0.length)
    (hIS : hasKw kw "input_shape" = true)
    (hok : repeat_layers args name nsi kw = Except.ok recs) :
    (∀ rec, recs[0]? = some rec → hasKw rec.kwargs "input_shape" = true) ∧
    (∀ i rec, 1 ≤ i → recs[i]? = some rec → hasKw rec.kwargs "input_shape" = false) := by
  subst hargs
  have hok2 : repeatFrom (a0 :: rest) name nsi kw 0 a0.length = Except.ok recs := by
    simpa [repeat_layers] using hok
  have hlens := repeatFrom_ok_lengths (a0 :: rest) name nsi a0.length 0 kw recs hok2
  obtain ⟨d, a0t, ha0⟩ : ∃ d a0t, a0 = d :: a0t := by
    cases a0 with
    | nil => simp at hn
    | cons x xs => exact ⟨x, xs, rfl⟩
  obtain ⟨recs2, hok3, hlen2, hidx⟩ :=
    repeatFrom_ok_spec (a0 :: rest) name nsi d a0.length 0 kw
      (fun l hl => by
        cases hlens l hl with
        | inl h0 => omega
        | inr hle => omega)
  rw [hok3] at hok2
  injection hok2 with hrecs
  subst hrecs
  constructor
  · intro rec h0
    have := hidx 0 (by omega)
    rw [this] at h0
    injection h0 with h0
    rw [← h0]
    simpa [hasKw_injectName_IS, kwIter] using hIS
  · intro i rec h1 hi
    have hilt : i < recs2.length := getElem?_some_lt recs2 i rec hi
    rw [hlen2] at hilt
    have := hidx i hilt
    rw [this] at hi
    injection hi with hi
    rw [← hi]
    obtain ⟨k, hk⟩ : ∃ k, i = k + 1 := ⟨i - 1, by omega⟩
    subst hk
    simp only [Nat.zero_add, hasKw_injectName_IS]
    exact kwIter_succ_no_IS name nsi k 0 kw

/-- C4: when the name template is set (a non-empty string), constructor call
`i` (counting from 0) receives keyword "name" with value
`name + "_" + str(name_start_index + i)`, overwriting any prior "name" value
in the shared configuration. -/
theorem repeat_layers_names (args : List (List α)) (a0 : List α)
    (rest : List (List α)) (nm : String) (nsi : Int)
    (kw : List (String × PyVal α)) (recs : List (CallRecord α))
    (hargs : args = a0 :: rest) (hnm : nm ≠ "")
    (hok : repeat_layers args (some nm) nsi kw = Except.ok recs) :
    ∀ (i : Nat) (rec : CallRecord α), recs[i]? = some rec →
      lookupKw rec.kwargs "name" =
        some (PyVal.str (nm ++ "_" ++ toString (nsi + (i : Int)))) := by
  subst hargs
  have hok2 : repeatFrom (a0 :: rest) (some nm) nsi kw 0 a0.length = Except.ok recs := by
    simpa [repeat_layers] using hok
  have hlens := repeatFrom_ok_lengths (a0 :: rest) (some nm) nsi a0.length 0 kw recs hok2
  intro i rec hi
  have hilt : i < recs.length := getElem?_some_lt recs i rec hi
  have hlen := repeatFrom_ok_len (a0 :: rest) (some nm) nsi a0.length 0 kw recs hok2
  rw [hlen] at hilt
  obtain ⟨d, a0t, ha0⟩ : ∃ d a0t, a0 = d :: a0t := by
    cases a0 with
    | nil => simp at hilt
    | cons x xs => exact ⟨x, xs, rfl⟩
  obtain ⟨recs2, hok3, hlen2, hidx⟩ :=
    repeatFrom_ok_spec (a0 :: rest) (some nm) nsi d a0.length 0 kw
      (fun l hl => by
        cases hlens l hl with
        | inl h0 => omega
        | inr hle => omega)
  rw [hok3] at hok2
  injection hok2 with hrecs
  subst hrecs
  have := hidx i hilt
  rw [this] at hi
  injection hi with hi
  rw [← hi]
  have htr : pyTruthy (some nm) = true := by
    simp [pyTruthy, bne_iff_ne, hnm]
  simp only [Nat.zero_add, injectName, htr, if_true, Option.getD_some]
  exact lookupKw_setKw_self _ "name" _

/-- C8: a call to `repeat_layers` in which some argument list is strictly
shorter than the first one fails by raising `IndexError`, unguarded and not
locally recovered. -/
theorem repeat_layers_short_idx (args : List (List α)) (a0 : List α)
    (rest : List (List α)) (name : Option String) (nsi : Int)
    (kw : List (String × PyVal α)) (l : List α)
    (hargs : args = a0 :: rest) (hl : l ∈ args) (hshort : l.length < a0.length) :
    repeat_layers args name nsi kw = Except.error PyError.indexError := by
  subst hargs
  cases repeatFrom_ok_or_idx (a0 :: rest) name nsi a0.length 0 kw with
  | inr h => simpa [repeat_layers] using h
  | inl h =>
    obtain ⟨recs, hr⟩ := h
    have := repeatFrom_ok_lengths (a0 :: rest) name nsi a0.length 0 kw recs hr l hl
    cases this with
    | inl h0 => omega
    | inr hle => omega

/-! Claim theorems about `call_layers` and `LayerStack` -/

/-- C5: `call_layers` is the left fold of function application: starting from
the input it applies each callable in list order; in particular
`call_layers [f, g, h] x = h (g (f x))` and `call_layers [] x = x`. -/
theorem call_layers_foldl (ls : List (α → α)) (x : α) (f g h : α → α) :
    call_layers ls x = ls.foldl (fun v φ => φ v) x ∧
    call_layers [f, g, h] x = h (g (f x)) ∧
    call_layers ([] : List (α → α)) x = x := by
  refine ⟨?_, rfl, rfl⟩
  induction ls generalizing x with
  | nil => rfl
  | cons l rest ih => simpa [call_layers, List.foldl_cons] using ih (l x)

/-- C6: constructing a `LayerStack` from a value that neither is a built-in
list nor exposes a `.layers` member (for example a single integer) raises
`ValueError`, and no stack is produced. -/
theorem layerStack_invalid_input (x : PyObj α)
    (h1 : getLayersAttr x = Option.none) (h2 : isPyList x = false) :
    layerStackInit x = Except.error (PyError.valueError
      "`keras_layers` must be a list or a keras Model instance.") := by
  cases x with
  | pylist ls => simp [isPyList] at h2
  | pytuple ls => rfl
  | withLayers m => simp [getLayersAttr] at h1
  | intVal n => rfl

/-- C7: a `LayerStack` built directly from a list of callables `L` and one
built from a composite object whose `.layers` member is `L` store the same
layers, and invoking either on an input equals applying `call_layers` to the
stored sequence and the input. -/
theorem layerStack_list_model_agree (L : List (α → α)) (x : α) :
    layerStackInit (PyObj.pylist L) = Except.ok L ∧
    layerStackInit (PyObj.withLayers (PyObj.pylist L)) = Except.ok L ∧
    stackCall L x = call_layers L x :=
  ⟨rfl, rfl, rfl⟩

/-- C10: a `LayerStack` built from a tuple of callables (an ordered sequence
that is not a built-in list and exposes no `.layers` member) raises
`ValueError`: the only sequence form accepted directly is exactly a list. -/
theorem layerStack_tuple_rejected (ls : List (α → α)) :
    layerStackInit (PyObj.pytuple ls) = Except.error (PyError.valueError
      "`keras_layers` must be a list or a keras Model instance.") ∧
    layerStackInit (PyObj.pylist ls) = Except.ok ls :=
  ⟨rfl, rfl⟩

/-! Frame property of `repeat_layers` (claim C9) -/

theorem repeatFromSt_eq (name : Option String) (nsi : Int) :
    ∀ (fuel : Nat) (s : Store α) (kw : List (String × PyVal α)) (i : Nat),
    repeatFromSt name nsi s kw i fuel = (repeatFrom s.lists name nsi kw i fuel, s) := by
  intro fuel
  induction fuel with
  | zero => intro s kw i; rfl
  | succ fuel ih =>
    intro s kw i
    cases hg : collectArgs s.lists i with
    | error e => simp [repeatFromSt, repeatFrom, hg]
    | ok arg =>
      cases hr : repeatFrom s.lists name nsi (stripIS (injectName name nsi i kw)) (i+1) fuel with
      | error e => simp [repeatFromSt, repeatFrom, hg, ih, hr]
      | ok rest => simp [repeatFromSt, repeatFrom, hg, ih, hr]

/-- C9: `repeat_layers` never mutates the caller's argument lists, and the
mapping the caller used to supply the keyword configuration is unchanged
after the call: the call with the caller's store threaded through every
operation returns the store exactly as it was, and its result is the pure
function of the store's contents (the name injection and the
`"input_shape"` removal act only on the callee's own keyword dictionary,
copied from the caller's mapping at call time). -/
theorem repeat_layers_frame (s : Store α) (name : Option String) (nsi : Int) :
    (repeat_layers_st s name nsi).2 = s ∧
    (repeat_layers_st s name nsi).1 = repeat_layers s.lists name nsi s.callerKw := by
  cases hs : s.lists with
  | nil => simp [repeat_layers_st, repeat_layers, hs]
  | cons a0 rest =>
    have h := repeatFromSt_eq name nsi a0.length s s.callerKw 0
    rw [hs] at h
    simp [repeat_layers_st, repeat_layers, hs, h]

/-! Concrete witnesses -/

theorem repeat_layers_pairs_args_witness :
    ([[1,2],[3,4]] : List (List Nat)) ≠ [] ∧
    (∀ l ∈ ([[1,2],[3,4]] : List (List Nat)), l.length = 2) ∧
    (∃ recs, repeat_layers ([[1,2],[3,4]] : List (List Nat)) Option.none 1 [] =
        Except.ok recs ∧ recs.length = 2 ∧
      ∀ i, i < 2 → ∃ rec, recs[i]? = some rec ∧
        rec.posArgs = ([[1,2],[3,4]] : List (List Nat)).map (fun l => l.getD i 0)) :=
  ⟨by decide, by decide,
   repeat_layers_pairs_args [[1,2],[3,4]] Option.none 1 [] 0 2 (by decide) (by decide)⟩

theorem repeat_layers_length_witness :
    repeat_layers ([[1,2],[3,4]] : List (List Nat)) Option.none 1 [] =
      Except.ok [⟨[1,3], []⟩, ⟨[2,4], []⟩] ∧
    (([⟨[1,3], []⟩, ⟨[2,4], []⟩] : List (CallRecord Nat)).length = ([1,2] : List Nat).length ∧
     repeat_layers ([] : List (List Nat)) Option.none 1 [] =
       Except.ok [⟨[], [("name", pyName Option.none)]⟩]) := by
  have hok : repeat_layers ([[1,2],[3,4]] : List (List Nat)) Option.none 1 [] =
      Except.ok [⟨[1,3], []⟩, ⟨[2,4], []⟩] := by rfl
  exact ⟨hok, repeat_layers_length [[1,2],[3,4]] [1,2] [[3,4]] Option.none 1 [] _ rfl hok⟩

theorem repeat_layers_IS_first_only_witness :
    hasKw (CallRecord.kwargs
      (⟨[1], [("input_shape", PyVal.val (7:Nat))]⟩ : CallRecord Nat)) "input_shape" = true ∧
    hasKw (CallRecord.kwargs (⟨[2], []⟩ : CallRecord Nat)) "input_shape" = false := by
  have hok : repeat_layers ([[1,2]] : List (List Nat)) Option.none 1
      [("input_shape", PyVal.val 7)] =
      Except.ok [⟨[1], [("input_shape", PyVal.val 7)]⟩, ⟨[2], []⟩] := by rfl
  have h := repeat_layers_IS_first_only [[1,2]] [1,2] [] Option.none 1
    [("input_shape", PyVal.val 7)] _ rfl (by decide) (by decide) hok
  exact ⟨h.1 _ rfl, h.2 1 _ (by decide) rfl⟩

theorem repeat_layers_names_witness :
    lookupKw (CallRecord.kwargs
      (⟨[10], [("name", PyVal.str "h_1")]⟩ : CallRecord Nat)) "name" =
      some (PyVal.str ("h" ++ "_" ++ toString ((1 : Int) + ((0 : Nat) : Int)))) ∧
    lookupKw (CallRecord.kwargs
      (⟨[20], [("name", PyVal.str "h_2")]⟩ : CallRecord Nat)) "name" =
      some (PyVal.str ("h" ++ "_" ++ toString ((1 : Int) + ((1 : Nat) : Int)))) ∧
    lookupKw (CallRecord.kwargs
      (⟨[30], [("name", PyVal.str "h_3")]⟩ : CallRecord Nat)) "name" =
      some (PyVal.str ("h" ++ "_" ++ toString ((1 : Int) + ((2 : Nat) : Int)))) := by
  have hok : repeat_layers ([[10,20,30]] : List (List Nat)) (some "h") 1
      [("name", PyVal.str "old")] =
      Except.ok [⟨[10], [("name", PyVal.str "h_1")]⟩,
        ⟨[20], [("name", PyVal.str "h_2")]⟩,
        ⟨[30], [("name", PyVal.str "h_3")]⟩] := by rfl
  have h := repeat_layers_names [[10,20,30]] [10,20,30] [] "h" 1
    [("name", PyVal.str "old")] _ rfl (by decide) hok
  exact ⟨h 0 _ rfl, h 1 _ rfl, h 2 _ rfl⟩

theorem layerStack_invalid_input_witness :
    getLayersAttr (PyObj.intVal 5 : PyObj Nat) = Option.none ∧
    isPyList (PyObj.intVal 5 : PyObj Nat) = false ∧
    layerStackInit (PyObj.intVal 5 : PyObj Nat) = Except.error (PyError.valueError
      "`keras_layers` must be a list or a keras Model instance.") :=
  ⟨rfl, rfl, layerStack_invalid_input _ rfl rfl⟩

theorem repeat_layers_short_idx_witness :
    ([3] : List Nat) ∈ ([[1,2],[3]] : List (List Nat)) ∧
    ([3] : List Nat).length < ([1,2] : List Nat).length ∧
    repeat_layers ([[1,2],[3]] : List (List Nat)) Option.none 1 [] =
      Except.error PyError.indexError :=
  ⟨by decide, by decide,
   repeat_layers_short_idx [[1,2],[3]] [1,2] [[3]] Option.none 1 [] [3]
     rfl (by decide) (by decide)⟩
